import Mathlib

/-!
Verification of the expect engine in `src/pexpect_mcp/server.py`, class
`WinPtySpawn`: the polling `expect` loop (lines 65-131), the reader
thread's buffer append (lines 48-63), and `close` (lines 152-160).

Modelling choices:
* Buffers and text are `List Char`.
* A text pattern is matched by leftmost substring search: the code calls
  `re.search(p, buffer)`, which for a literal pattern returns the
  leftmost occurrence; the embedding covers literal patterns.
* Wall-clock time is a natural number; the loop's check
  `elapsed >= timeout` becomes `timeout ≤ elapsed`.
* One pass of the `while True` loop is `expectStep`, a function of the
  pattern list, the timeout, the elapsed time observed at the pass, the
  liveness observation, and the session state.  A whole `expect` call is
  `runExpect`, which folds `expectStep` over a schedule of observations,
  letting the reader thread append arrived bytes before each pass.
* The Python field `self.match` is called `matchv` here (`match` is a
  Lean keyword); it stores the matched span.
-/

namespace PexpectMcp

/-- A pattern accepted by `WinPtySpawn.expect`: literal text, the `EOF`
sentinel class, or the `TIMEOUT` sentinel class. -/
inductive Pattern where
  | text (s : List Char)
  | eof
  | timeoutMark
deriving DecidableEq

/-- The caller-visible mutable fields of a `WinPtySpawn`: `buffer`,
`before`, `after`, `match` (here `matchv`), together with the flags
touched by `close` (`_stop_reader`, and whether `proc.close()` ran). -/
structure SpawnState where
  buffer : List Char
  before : List Char
  after : List Char
  matchv : Option (List Char)
  stopReader : Bool
  procClosed : Bool
deriving DecidableEq

/-- Outcome of one pass of the `expect` polling loop: a returned match
index with the updated state, a raised `TimeoutError` or `EOFError`
(carrying the snapshot interpolated into the message and the state at
the raise), or another pass (`time.sleep(0.01)` and repeat). -/
inductive ExpectOutcome where
  | matched (idx : Nat) (st : SpawnState)
  | timeoutErr (snapshot : List Char) (st : SpawnState)
  | eofErr (snapshot : List Char) (st : SpawnState)
  | poll (st : SpawnState)
deriving DecidableEq

/-- One observation a loop pass makes: the elapsed time at the pass, the
`proc.isalive()` reading, and the bytes the reader thread appended since
the previous pass. -/
structure Obs where
  elapsed : Nat
  alive : Bool
  arrived : List Char
deriving DecidableEq

/-- Leftmost index at which `pat` occurs in the haystack, as
`re.search` computes it for a literal pattern (`none` when absent). -/
def findSub (pat : List Char) : List Char → Option Nat
  | [] => if pat.isPrefixOf [] then some 0 else none
  | c :: t =>
    if pat.isPrefixOf (c :: t) then some 0
    else (findSub pat t).map (· + 1)

/-- `p` has no satisfying location in `buf`: a text pattern with no
occurrence; the `EOF`/`TIMEOUT` sentinels never have a location in a
buffer. -/
def noTextMatch (p : Pattern) (buf : List Char) : Bool :=
  match p with
  | .text s => (findSub s buf).isNone
  | _ => true

/-- Index of the first `EOF` sentinel in the pattern list, counting from
`i` (the loop at server.py lines 100-106). -/
def firstEofIdx : Nat → List Pattern → Option Nat
  | _, [] => none
  | i, Pattern.eof :: _ => some i
  | i, _ :: ps => firstEofIdx (i + 1) ps

/-- The scan of server.py lines 113-128: patterns in declaration order,
`EOF` and `TIMEOUT` sentinels skipped, first text pattern with an
occurrence in the buffer wins; returns
(pattern index, match start, matched text). -/
def scanFrom : Nat → List Char → List Pattern → Option (Nat × Nat × List Char)
  | _, _, [] => none
  | i, buf, Pattern.text s :: ps =>
    match findSub s buf with
    | some j => some (i, j, s)
    | none => scanFrom (i + 1) buf ps
  | i, buf, _ :: ps => scanFrom (i + 1) buf ps

/-- One pass of the `while True` loop of `WinPtySpawn.expect`
(server.py lines 86-131), at elapsed time `elapsed` with liveness
observation `alive`: the timeout check first (raise `TimeoutError` with
the first 500 buffered characters as snapshot); then the not-alive
branch (first `EOF` sentinel in the list wins, the whole buffer moves to
`before` and is cleared, otherwise `EOFError` with the full buffer);
then the text scan (split into before / matched / rest); otherwise
sleep and poll again. -/
def expectStep (pats : List Pattern) (timeout elapsed : Nat) (alive : Bool)
    (st : SpawnState) : ExpectOutcome :=
  if timeout ≤ elapsed then
    .timeoutErr (st.buffer.take 500) st
  else if alive = false then
    match firstEofIdx 0 pats with
    | some i => .matched i { st with before := st.buffer, after := [], buffer := [] }
    | none => .eofErr st.buffer st
  else
    match scanFrom 0 st.buffer pats with
    | some (i, j, s) =>
      .matched i { st with
        before := st.buffer.take j
        after := s
        matchv := some s
        buffer := st.buffer.drop (j + s.length) }
    | none => .poll st

/-- The reader thread's append (server.py lines 54-57): data read from
the process is concatenated onto the end of the buffer under the lock. -/
def readerAppend (st : SpawnState) (data : List Char) : SpawnState :=
  { st with buffer := st.buffer ++ data }

/-- `WinPtySpawn.close` (server.py lines 152-160): set `_stop_reader`,
join the reader thread, close the process handle swallowing any error.
The observable effect is the two flags. -/
def close (st : SpawnState) : SpawnState :=
  { st with stopReader := true, procClosed := true }

/-- A whole `expect` call run against a schedule of observations: each
pass first sees the reader's appends, then executes one loop pass; only
`poll` continues with the next observation.  An exhausted schedule
leaves the call still polling. -/
def runExpect (pats : List Pattern) (timeout : Nat) :
    List Obs → SpawnState → ExpectOutcome
  | [], st => .poll st
  | o :: rest, st =>
    match expectStep pats timeout o.elapsed o.alive (readerAppend st o.arrived) with
    | .poll st1 => runExpect pats timeout rest st1
    | r => r

/-! ### Substring search: soundness, leastness, decomposition -/

/-- When `findSub` reports index `j`, the pattern is a prefix of the
buffer's suffix starting at `j`. -/
theorem findSub_occ : ∀ {hay : List Char} {j : Nat} {pat : List Char},
    findSub pat hay = some j → pat <+: hay.drop j := by
  intro hay
  induction hay with
  | nil =>
    intro j pat h
    simp only [findSub] at h
    split at h
    · next hp =>
      cases h
      simpa using List.isPrefixOf_iff_prefix.mp hp
    · cases h
  | cons c t ih =>
    intro j pat h
    simp only [findSub] at h
    split at h
    · next hp =>
      cases h
      simpa using List.isPrefixOf_iff_prefix.mp hp
    · next hp =>
      cases hfj : findSub pat t with
      | none => rw [hfj] at h; cases h
      | some j' =>
        rw [hfj] at h
        simp only [Option.map_some', Option.some.injEq] at h
        subst h
        simpa [List.drop_succ_cons] using ih hfj

/-- When `findSub` reports index `j`, no earlier position carries an
occurrence: `j` is the leftmost one. -/
theorem findSub_least : ∀ {hay : List Char} {j : Nat} {pat : List Char},
    findSub pat hay = some j → ∀ i, i < j → ¬ pat <+: hay.drop i := by
  intro hay
  induction hay with
  | nil =>
    intro j pat h i hi
    simp only [findSub] at h
    split at h
    · cases h; omega
    · cases h
  | cons c t ih =>
    intro j pat h i hi
    simp only [findSub] at h
    split at h
    · cases h; omega
    · next hp =>
      cases hfj : findSub pat t with
      | none => rw [hfj] at h; cases h
      | some j' =>
        rw [hfj] at h
        simp only [Option.map_some', Option.some.injEq] at h
        subst h
        cases i with
        | zero =>
          simpa [List.isPrefixOf_iff_prefix] using hp
        | succ i' =>
          simpa [List.drop_succ_cons] using ih hfj i' (by omega)

/-- When `findSub` reports no index, the pattern occurs nowhere in the
buffer. -/
theorem findSub_none_occ : ∀ {hay pat : List Char},
    findSub pat hay = none → ∀ i, ¬ pat <+: hay.drop i := by
  intro hay
  induction hay with
  | nil =>
    intro pat h i
    simp only [findSub] at h
    split at h
    · cases h
    · next hp => simpa [List.isPrefixOf_iff_prefix] using hp
  | cons c t ih =>
    intro pat h i
    simp only [findSub] at h
    split at h
    · cases h
    · next hp =>
      cases hfj : findSub pat t with
      | none =>
        cases i with
        | zero => simpa [List.isPrefixOf_iff_prefix] using hp
        | succ i' => simpa [List.drop_succ_cons] using ih hfj i'
      | some j' => rw [hfj] at h; cases h

/-- A pattern with no occurrence anywhere makes `findSub` report
`none`. -/
theorem findSub_eq_none_of {pat hay : List Char}
    (h : ∀ i, ¬ pat <+: hay.drop i) : findSub pat hay = none := by
  cases hfs : findSub pat hay with
  | none => rfl
  | some j => exact absurd (findSub_occ hfs) (h j)

/-- `findSub` computes exactly the leftmost occurrence: an occurrence at
`j` with none earlier pins the result to `some j`. -/
theorem findSub_eq_of {pat hay : List Char} {j : Nat}
    (hocc : pat <+: hay.drop j)
    (hleast : ∀ i, i < j → ¬ pat <+: hay.drop i) :
    findSub pat hay = some j := by
  cases hfs : findSub pat hay with
  | none => exact absurd hocc (findSub_none_occ hfs j)
  | some j' =>
    have h1 := findSub_occ hfs
    have h2 := findSub_least hfs
    rcases Nat.lt_trichotomy j' j with h | h | h
    · exact absurd h1 (hleast j' h)
    · rw [h]
    · exact absurd hocc (h2 j h)

/-- A reported occurrence splits the buffer into the text before the
match, the matched text, and the text after `match.end()`. -/
theorem findSub_split {pat hay : List Char} {j : Nat}
    (h : findSub pat hay = some j) :
    hay.take j ++ pat ++ hay.drop (j + pat.length) = hay := by
  have hp := findSub_occ h
  have hdec := List.prefix_iff_eq_append.mp hp
  calc hay.take j ++ pat ++ hay.drop (j + pat.length)
      = hay.take j ++ (pat ++ (hay.drop j).drop pat.length) := by
        rw [List.drop_drop, List.append_assoc]
    _ = hay.take j ++ hay.drop j := by rw [hdec]
    _ = hay := List.take_append_drop j hay

/-! ### Pattern scan and EOF search -/

/-- Patterns with no satisfying location (and sentinels) are skipped by
the scan, which continues at the index past them. -/
theorem scanFrom_append (buf : List Char) :
    ∀ (pre : List Pattern) (i : Nat) (post : List Pattern),
    (∀ q ∈ pre, noTextMatch q buf = true) →
    scanFrom i buf (pre ++ post) = scanFrom (i + pre.length) buf post := by
  intro pre
  induction pre with
  | nil => intro i post _; simp
  | cons q pre' ih =>
    intro i post hpre
    have hq : noTextMatch q buf = true := hpre q (List.mem_cons_self q pre')
    have hrest : ∀ r ∈ pre', noTextMatch r buf = true :=
      fun r hr => hpre r (List.mem_cons_of_mem q hr)
    cases q with
    | text s =>
      have hfs : findSub s buf = none := by
        simpa [noTextMatch, Option.isNone_iff_eq_none] using hq
      have : scanFrom i buf (Pattern.text s :: (pre' ++ post)) =
          scanFrom (i + 1) buf (pre' ++ post) := by
        simp [scanFrom, hfs]
      rw [List.cons_append, this, ih (i + 1) post hrest]
      congr 1
      simp [List.length_cons]
      omega
    | eof =>
      rw [List.cons_append]
      show scanFrom (i + 1) buf (pre' ++ post) = _
      rw [ih (i + 1) post hrest]
      congr 1
      simp [List.length_cons]
      omega
    | timeoutMark =>
      rw [List.cons_append]
      show scanFrom (i + 1) buf (pre' ++ post) = _
      rw [ih (i + 1) post hrest]
      congr 1
      simp [List.length_cons]
      omega

/-- A scan hit names a text pattern actually in the list, at the
reported offset, whose leftmost occurrence is the reported one. -/
theorem scanFrom_sound : ∀ {pats : List Pattern} {n i j : Nat} {s buf : List Char},
    scanFrom n buf pats = some (i, j, s) →
    ∃ k, i = n + k ∧ pats[k]? = some (Pattern.text s) ∧ findSub s buf = some j := by
  intro pats
  induction pats with
  | nil => intro n i j s buf h; cases h
  | cons p ps ih =>
    intro n i j s buf h
    cases p with
    | text s' =>
      cases hfs : findSub s' buf with
      | some j' =>
        simp only [scanFrom, hfs] at h
        cases h
        exact ⟨0, by omega, by simp, hfs⟩
      | none =>
        simp only [scanFrom, hfs] at h
        obtain ⟨k, hk, hget, hfind⟩ := ih h
        exact ⟨k + 1, by omega, by simpa using hget, hfind⟩
    | eof =>
      simp only [scanFrom] at h
      obtain ⟨k, hk, hget, hfind⟩ := ih h
      exact ⟨k + 1, by omega, by simpa using hget, hfind⟩
    | timeoutMark =>
      simp only [scanFrom] at h
      obtain ⟨k, hk, hget, hfind⟩ := ih h
      exact ⟨k + 1, by omega, by simpa using hget, hfind⟩

/-- The first-EOF search reports a position in the list that holds the
`EOF` sentinel. -/
theorem firstEofIdx_sound : ∀ {pats : List Pattern} {n i : Nat},
    firstEofIdx n pats = some i → ∃ k, i = n + k ∧ pats[k]? = some Pattern.eof := by
  intro pats
  induction pats with
  | nil => intro n i h; cases h
  | cons p ps ih =>
    intro n i h
    cases p with
    | eof =>
      simp only [firstEofIdx] at h
      cases h
      exact ⟨0, by omega, by simp⟩
    | text s =>
      simp only [firstEofIdx] at h
      obtain ⟨k, hk, hget⟩ := ih h
      exact ⟨k + 1, by omega, by simpa using hget⟩
    | timeoutMark =>
      simp only [firstEofIdx] at h
      obtain ⟨k, hk, hget⟩ := ih h
      exact ⟨k + 1, by omega, by simpa using hget⟩

/-- If the list holds the `EOF` sentinel, the first-EOF search succeeds. -/
theorem firstEofIdx_isSome : ∀ {pats : List Pattern} (n : Nat),
    Pattern.eof ∈ pats → (firstEofIdx n pats).isSome = true := by
  intro pats
  induction pats with
  | nil => intro n h; cases h
  | cons p ps ih =>
    intro n h
    cases p with
    | eof => simp [firstEofIdx]
    | text s =>
      have : Pattern.eof ∈ ps := by
        rcases List.mem_cons.mp h with h' | h'
        · cases h'
        · exact h'
      simpa [firstEofIdx] using ih (n + 1) this
    | timeoutMark =>
      have : Pattern.eof ∈ ps := by
        rcases List.mem_cons.mp h with h' | h'
        · cases h'
        · exact h'
      simpa [firstEofIdx] using ih (n + 1) this

/-- Without the `EOF` sentinel in the list, the first-EOF search fails. -/
theorem firstEofIdx_eq_none : ∀ {pats : List Pattern} (n : Nat),
    Pattern.eof ∉ pats → firstEofIdx n pats = none := by
  intro pats
  induction pats with
  | nil => intro n _; rfl
  | cons p ps ih =>
    intro n h
    cases p with
    | eof => exact absurd (List.mem_cons_self _ _) h
    | text s =>
      exact ih (n + 1) (fun hm => h (List.mem_cons_of_mem _ hm))
    | timeoutMark =>
      exact ih (n + 1) (fun hm => h (List.mem_cons_of_mem _ hm))

/-! ### Inversion of one loop pass -/

/-- A pass that returns an index did so either from the not-alive EOF
branch or from the text scan, with the corresponding state update. -/
theorem expectStep_matched_inv {pats : List Pattern} {timeout elapsed : Nat}
    {alive : Bool} {st : SpawnState} {i : Nat} {st' : SpawnState}
    (h : expectStep pats timeout elapsed alive st = .matched i st') :
    elapsed < timeout ∧
    ((alive = false ∧ firstEofIdx 0 pats = some i ∧
        st' = { st with before := st.buffer, after := [], buffer := [] }) ∨
     (alive = true ∧ ∃ j s, scanFrom 0 st.buffer pats = some (i, j, s) ∧
        st' = { st with
          before := st.buffer.take j
          after := s
          matchv := some s
          buffer := st.buffer.drop (j + s.length) })) := by
  unfold expectStep at h
  split at h
  · cases h
  · next htime =>
    refine ⟨by omega, ?_⟩
    split at h
    · next halive =>
      left
      refine ⟨halive, ?_⟩
      cases hfe : firstEofIdx 0 pats with
      | some i' =>
        rw [hfe] at h
        cases h
        exact ⟨rfl, rfl⟩
      | none => rw [hfe] at h; cases h
    · next halive =>
      right
      refine ⟨by revert halive; cases alive <;> simp, ?_⟩
      cases hsc : scanFrom 0 st.buffer pats with
      | some r =>
        obtain ⟨i', j, s⟩ := r
        rw [hsc] at h
        cases h
        exact ⟨j, s, rfl, rfl⟩
      | none => rw [hsc] at h; cases h

/-- A pass that raises `TimeoutError` leaves the state untouched,
snapshots the first 500 buffered characters, and happens exactly when
the deadline has been reached. -/
theorem expectStep_timeoutErr_inv {pats : List Pattern} {timeout elapsed : Nat}
    {alive : Bool} {st : SpawnState} {snap : List Char} {st' : SpawnState}
    (h : expectStep pats timeout elapsed alive st = .timeoutErr snap st') :
    st' = st ∧ snap = st.buffer.take 500 ∧ timeout ≤ elapsed := by
  unfold expectStep at h
  split at h
  · next htime => cases h; exact ⟨rfl, rfl, htime⟩
  · split at h
    · cases hfe : firstEofIdx 0 pats <;> rw [hfe] at h <;> cases h
    · cases hsc : scanFrom 0 st.buffer pats with
      | some r => obtain ⟨i', j, s⟩ := r; rw [hsc] at h; cases h
      | none => rw [hsc] at h; cases h

/-- A pass that raises `EOFError` leaves the state untouched, snapshots
the full buffer, and happens exactly when the process is not alive, the
deadline has not passed, and no `EOF` sentinel is in the list. -/
theorem expectStep_eofErr_inv {pats : List Pattern} {timeout elapsed : Nat}
    {alive : Bool} {st : SpawnState} {snap : List Char} {st' : SpawnState}
    (h : expectStep pats timeout elapsed alive st = .eofErr snap st') :
    st' = st ∧ snap = st.buffer ∧ alive = false ∧ elapsed < timeout ∧
    firstEofIdx 0 pats = none := by
  unfold expectStep at h
  split at h
  · cases h
  · next htime =>
    split at h
    · next halive =>
      cases hfe : firstEofIdx 0 pats with
      | some i' => rw [hfe] at h; cases h
      | none =>
        rw [hfe] at h
        cases h
        exact ⟨rfl, rfl, halive, by omega, rfl⟩
    · cases hsc : scanFrom 0 st.buffer pats with
      | some r => obtain ⟨i', j, s⟩ := r; rw [hsc] at h; cases h
      | none => rw [hsc] at h; cases h

/-- A pass that just polls again leaves the state untouched. -/
theorem expectStep_poll_inv {pats : List Pattern} {timeout elapsed : Nat}
    {alive : Bool} {st : SpawnState} {st' : SpawnState}
    (h : expectStep pats timeout elapsed alive st = .poll st') : st' = st := by
  unfold expectStep at h
  split at h
  · cases h
  · split at h
    · cases hfe : firstEofIdx 0 pats <;> rw [hfe] at h <;> cases h
    · cases hsc : scanFrom 0 st.buffer pats with
      | some r => obtain ⟨i', j, s⟩ := r; rw [hsc] at h; cases h
      | none => rw [hsc] at h; cases h; rfl

/-! ### The whole call over a schedule -/

/-- A failing call never consumed anything: `before`, `after` and
`match` are exactly as at call entry, and the buffer is the entry buffer
extended by whatever the reader thread appended during the call. -/
theorem runExpect_fail_inv (pats : List Pattern) (timeout : Nat) :
    ∀ (sched : List Obs) (st : SpawnState) (snap : List Char) (st' : SpawnState),
    (runExpect pats timeout sched st = .timeoutErr snap st' ∨
     runExpect pats timeout sched st = .eofErr snap st') →
    st'.before = st.before ∧ st'.after = st.after ∧ st'.matchv = st.matchv ∧
    ∃ app, st'.buffer = st.buffer ++ app := by
  intro sched
  induction sched with
  | nil =>
    intro st snap st' h
    rcases h with h | h <;> simp only [runExpect] at h <;> cases h
  | cons o rest ih =>
    intro st snap st' h
    have hread : (readerAppend st o.arrived).before = st.before ∧
        (readerAppend st o.arrived).after = st.after ∧
        (readerAppend st o.arrived).matchv = st.matchv ∧
        (readerAppend st o.arrived).buffer = st.buffer ++ o.arrived :=
      ⟨rfl, rfl, rfl, rfl⟩
    cases hstep : expectStep pats timeout o.elapsed o.alive (readerAppend st o.arrived) with
    | matched i s2 =>
      rcases h with h | h <;> simp only [runExpect, hstep] at h <;> cases h
    | timeoutErr snap2 s2 =>
      have h2 := (expectStep_timeoutErr_inv hstep).1
      rcases h with h | h <;> simp only [runExpect, hstep] at h
      · cases h
        subst h2
        exact ⟨hread.1, hread.2.1, hread.2.2.1, o.arrived, hread.2.2.2⟩
      · cases h
    | eofErr snap2 s2 =>
      have h2 := (expectStep_eofErr_inv hstep).1
      rcases h with h | h <;> simp only [runExpect, hstep] at h
      · cases h
      · cases h
        subst h2
        exact ⟨hread.1, hread.2.1, hread.2.2.1, o.arrived, hread.2.2.2⟩
    | poll s2 =>
      have h2 := expectStep_poll_inv hstep
      subst h2
      have h' : runExpect pats timeout rest (readerAppend st o.arrived) = .timeoutErr snap st' ∨
          runExpect pats timeout rest (readerAppend st o.arrived) = .eofErr snap st' := by
        rcases h with h | h <;> simp only [runExpect, hstep] at h
        · exact Or.inl h
        · exact Or.inr h
      obtain ⟨hb, ha, hm, app, happ⟩ := ih (readerAppend st o.arrived) snap st' h'
      refine ⟨hb.trans hread.1, ha.trans hread.2.1, hm.trans hread.2.2.1, ?_⟩
      exact ⟨o.arrived ++ app, by rw [happ, hread.2.2.2, List.append_assoc]⟩

/-- A call that returned an index did so via some single loop pass. -/
theorem runExpect_matched_step (pats : List Pattern) (timeout : Nat) :
    ∀ (sched : List Obs) (st : SpawnState) (i : Nat) (st' : SpawnState),
    runExpect pats timeout sched st = .matched i st' →
    ∃ e a stm, expectStep pats timeout e a stm = .matched i st' := by
  intro sched
  induction sched with
  | nil => intro st i st' h; simp only [runExpect] at h; cases h
  | cons o rest ih =>
    intro st i st' h
    cases hstep : expectStep pats timeout o.elapsed o.alive (readerAppend st o.arrived) with
    | matched i2 s2 =>
      simp only [runExpect, hstep] at h
      cases h
      exact ⟨o.elapsed, o.alive, readerAppend st o.arrived, hstep⟩
    | timeoutErr snap2 s2 => simp only [runExpect, hstep] at h; cases h
    | eofErr snap2 s2 => simp only [runExpect, hstep] at h; cases h
    | poll s2 =>
      simp only [runExpect, hstep] at h
      exact ih s2 i st' h

/-- With an empty pattern list and a live process, a call can only poll
or time out. -/
theorem runExpect_empty_result (timeout : Nat) :
    ∀ (sched : List Obs) (st : SpawnState),
    (∀ o ∈ sched, o.alive = true) →
    (∃ st1, runExpect [] timeout sched st = .poll st1) ∨
    (∃ snap st1, runExpect [] timeout sched st = .timeoutErr snap st1) := by
  intro sched
  induction sched with
  | nil => intro st _; exact Or.inl ⟨st, rfl⟩
  | cons o rest ih =>
    intro st halive
    have ho : o.alive = true := halive o (List.mem_cons_self o rest)
    have hrest : ∀ o' ∈ rest, o'.alive = true :=
      fun o' h' => halive o' (List.mem_cons_of_mem o h')
    cases hstep : expectStep [] timeout o.elapsed o.alive (readerAppend st o.arrived) with
    | matched i2 s2 =>
      have := expectStep_matched_inv hstep
      rcases this.2 with ⟨hfalse, _⟩ | ⟨_, j, s, hsc, _⟩
      · rw [ho] at hfalse; cases hfalse
      · cases hsc
    | timeoutErr snap2 s2 =>
      right
      exact ⟨snap2, s2, by simp only [runExpect, hstep]⟩
    | eofErr snap2 s2 =>
      have := (expectStep_eofErr_inv hstep).2.2.1
      rw [ho] at this; cases this
    | poll s2 =>
      have : runExpect [] timeout (o :: rest) st = runExpect [] timeout rest s2 := by
        simp only [runExpect, hstep]
      rw [this]
      exact ih s2 hrest

/-! ### Concrete states for instantiating the theorems -/

/-- A session whose reader has buffered `"ab"`, otherwise fresh. -/
def stAB : SpawnState where
  buffer := ['a', 'b']
  before := []
  after := []
  matchv := none
  stopReader := false
  procClosed := false

/-- A session whose reader has buffered `"ready"`, otherwise fresh. -/
def stReady : SpawnState where
  buffer := ['r', 'e', 'a', 'd', 'y']
  before := []
  after := []
  matchv := none
  stopReader := false
  procClosed := false

/-- The state `stAB` after a successful match of the text `"a"`. -/
def stABmatched : SpawnState where
  buffer := ['b']
  before := []
  after := ['a']
  matchv := some ['a']
  stopReader := false
  procClosed := false

/-! ### The claims -/

/-- Claim C1: with the process alive and before the deadline, when the
text pattern at index `pre.length` has a satisfying location in the
buffer (the earliest being at `j`) and no earlier-declared pattern has
any satisfying location, `expect` returns that index, sets `before` to
the buffer prefix preceding the earliest occurrence, sets the matched
span (`after` and `match`) to exactly the matched text, and replaces the
buffer with the original suffix following the match; before, matched
span and new buffer reassemble to the original buffer. -/
theorem expect_first_match (pats pre post : List Pattern) (p : List Char)
    (timeout elapsed j : Nat) (st : SpawnState)
    (hpats : pats = pre ++ Pattern.text p :: post)
    (htime : elapsed < timeout)
    (hocc : p <+: st.buffer.drop j)
    (hleast : ∀ i, i < j → ¬ p <+: st.buffer.drop i)
    (hpre : ∀ q ∈ pre, ∀ s, q = Pattern.text s → ∀ i, ¬ s <+: st.buffer.drop i) :
    expectStep pats timeout elapsed true st =
      .matched pre.length { st with
        before := st.buffer.take j
        after := p
        matchv := some p
        buffer := st.buffer.drop (j + p.length) } ∧
    st.buffer.take j ++ p ++ st.buffer.drop (j + p.length) = st.buffer := by
  have hfs : findSub p st.buffer = some j := findSub_eq_of hocc hleast
  have hpre' : ∀ q ∈ pre, noTextMatch q st.buffer = true := by
    intro q hq
    cases q with
    | text s =>
      have hnone : findSub s st.buffer = none :=
        findSub_eq_none_of (fun i => hpre (Pattern.text s) hq s rfl i)
      simp [noTextMatch, hnone]
    | eof => rfl
    | timeoutMark => rfl
  refine ⟨?_, findSub_split hfs⟩
  subst hpats
  unfold expectStep
  rw [if_neg (by omega)]
  rw [if_neg (by simp)]
  rw [scanFrom_append st.buffer pre 0 (Pattern.text p :: post) hpre']
  simp [scanFrom, hfs]

/-- Claim C1 witness: patterns `[EOF, "b"]` against buffer `"ab"`: the
text pattern at index 1 matches at offset 1, `before` is `"a"`, the
matched span is `"b"`, the remaining buffer is empty. -/
theorem expect_first_match_witness :
    expectStep [Pattern.eof, Pattern.text ['b']] 5 0 true stAB =
      .matched 1 { stAB with
        before := stAB.buffer.take 1
        after := ['b']
        matchv := some ['b']
        buffer := stAB.buffer.drop 2 } ∧
    stAB.buffer.take 1 ++ ['b'] ++ stAB.buffer.drop 2 = stAB.buffer :=
  expect_first_match [Pattern.eof, Pattern.text ['b']] [Pattern.eof] [] ['b']
    5 0 1 stAB rfl (by decide) (by decide) (by decide)
    (fun q hq s hqs i => by
      simp only [List.mem_singleton] at hq
      subst hq
      cases hqs)

/-- Claim C2: on a pass where the transport reports the process not
alive and the deadline has not passed: when the pattern list holds the
`EOF` sentinel, the first-EOF search succeeds, and whenever it reports
index `i`, position `i` of the list holds `EOF`, the pass returns `i`
with the entire remaining buffer moved into `before` and the buffer
cleared; when no `EOF` sentinel is present the pass raises `EOFError`
carrying the full buffer snapshot. -/
theorem expect_not_alive (pats : List Pattern) (timeout elapsed : Nat)
    (st : SpawnState) (i : Nat) (htime : elapsed < timeout) :
    (Pattern.eof ∈ pats → (firstEofIdx 0 pats).isSome = true) ∧
    (firstEofIdx 0 pats = some i →
      pats[i]? = some Pattern.eof ∧
      expectStep pats timeout elapsed false st =
        .matched i { st with before := st.buffer, after := [], buffer := [] }) ∧
    (Pattern.eof ∉ pats →
      expectStep pats timeout elapsed false st = .eofErr st.buffer st) := by
  refine ⟨fun hm => firstEofIdx_isSome 0 hm, fun hfe => ⟨?_, ?_⟩, fun hnm => ?_⟩
  · obtain ⟨k, hk, hget⟩ := firstEofIdx_sound hfe
    rw [hk]
    simpa using hget
  · unfold expectStep
    rw [if_neg (by omega)]
    rw [if_pos rfl]
    rw [hfe]
  · unfold expectStep
    rw [if_neg (by omega)]
    rw [if_pos rfl]
    rw [firstEofIdx_eq_none 0 hnm]

/-- Claim C2 witness: patterns `["x", EOF]` on a dead process with
buffer `"ab"`: the EOF sentinel at index 1 wins, the whole buffer moves
into `before`, and the buffer is cleared. -/
theorem expect_not_alive_witness :
    (firstEofIdx 0 [Pattern.text ['x'], Pattern.eof]).isSome = true ∧
    ([Pattern.text ['x'], Pattern.eof][1]? = some Pattern.eof ∧
      expectStep [Pattern.text ['x'], Pattern.eof] 5 0 false stAB =
        .matched 1 { stAB with before := stAB.buffer, after := [], buffer := [] }) :=
  ⟨(expect_not_alive [Pattern.text ['x'], Pattern.eof] 5 0 stAB 1 (by decide)).1
      (by decide),
   (expect_not_alive [Pattern.text ['x'], Pattern.eof] 5 0 stAB 1 (by decide)).2.1
      (by decide)⟩

/-- Claim C3 counterexample: with the process not alive, buffer
`"ready"`, and the single text pattern `"ready"` — which has a
satisfying location, the whole residual buffer — the pass raises
`EOFError` instead of succeeding on the text pattern: the not-alive
branch runs before the text scan, so the scan is never reached. -/
theorem expect_ended_text_cex :
    findSub ['r', 'e', 'a', 'd', 'y'] stReady.buffer = some 0 ∧
    expectStep [Pattern.text ['r', 'e', 'a', 'd', 'y']] 10 0 false stReady =
      .eofErr stReady.buffer stReady :=
  ⟨rfl, rfl⟩

/-- Claim C3 amended: in the Ended state (process not alive) a text
pattern never matches, even when the residual buffered text satisfies
it: any pass that returns an index returns an `EOF` sentinel position,
with the whole residual buffer moved into `before`, the buffer cleared,
and the matched span empty. -/
theorem expect_ended_only_eof (pats : List Pattern) (timeout elapsed : Nat)
    (st : SpawnState) :
    ∀ i st', expectStep pats timeout elapsed false st = .matched i st' →
      pats[i]? = some Pattern.eof ∧ st'.before = st.buffer ∧
      st'.buffer = [] ∧ st'.after = [] := by
  intro i st' h
  obtain ⟨-, hcase⟩ := expectStep_matched_inv h
  rcases hcase with ⟨-, hfe, hst⟩ | ⟨halive, -⟩
  · obtain ⟨k, hk, hget⟩ := firstEofIdx_sound hfe
    subst hst
    refine ⟨?_, rfl, rfl, rfl⟩
    rw [hk]
    simpa using hget
  · cases halive

/-- Claim C3 amended, witness: a dead process with buffer `"ready"` and
patterns `[EOF]`: the returned index 0 is the EOF position, `before`
takes the residual buffer, and the buffer is cleared. -/
theorem expect_ended_only_eof_witness :
    ([Pattern.eof] : List Pattern)[0]? = some Pattern.eof ∧
    ({ stReady with before := stReady.buffer, after := [], buffer := [] } :
        SpawnState).before = stReady.buffer ∧
    ({ stReady with before := stReady.buffer, after := [], buffer := [] } :
        SpawnState).buffer = [] ∧
    ({ stReady with before := stReady.buffer, after := [], buffer := [] } :
        SpawnState).after = [] :=
  expect_ended_only_eof [Pattern.eof] 10 0 stReady 0
    { stReady with before := stReady.buffer, after := [], buffer := [] } rfl

/-- Claim C4 counterexample: a pass over the empty pattern list with the
process alive and the deadline not yet reached fails with nothing — it
just polls again — and once the deadline is reached the call fails with
`TimeoutError`: the empty list is never surfaced as invalid input; the
call waits out the deadline. -/
theorem expect_empty_cex :
    expectStep [] 5 0 true stAB = .poll stAB ∧
    expectStep [] 5 6 true stAB = .timeoutErr (stAB.buffer.take 500) stAB :=
  ⟨rfl, rfl⟩

/-- Claim C4 amended: an empty pattern list is not rejected immediately:
with the process alive, each pass either polls again (before the
deadline) or fails with `TimeoutError` (at or past the deadline), and a
whole call whose liveness observations stay true never returns an index
and never raises `EOFError` — it waits out the deadline and fails with
Timeout. -/
theorem expect_empty_patterns (timeout elapsed : Nat) (st : SpawnState)
    (sched : List Obs) (halive : ∀ o ∈ sched, o.alive = true) :
    (expectStep [] timeout elapsed true st =
      if timeout ≤ elapsed then .timeoutErr (st.buffer.take 500) st else .poll st) ∧
    (∀ i st1, runExpect [] timeout sched st ≠ .matched i st1) ∧
    (∀ snap st1, runExpect [] timeout sched st ≠ .eofErr snap st1) := by
  refine ⟨?_, ?_, ?_⟩
  · unfold expectStep
    split
    · rfl
    · rfl
  · intro i st1 hm
    rcases runExpect_empty_result timeout sched st halive with ⟨st2, h2⟩ | ⟨snap2, st2, h2⟩ <;>
      rw [hm] at h2 <;> cases h2
  · intro snap st1 hm
    rcases runExpect_empty_result timeout sched st halive with ⟨st2, h2⟩ | ⟨snap2, st2, h2⟩ <;>
      rw [hm] at h2 <;> cases h2

/-- Claim C4 amended, witness: one live observation; before the deadline
the pass with no patterns just polls. -/
theorem expect_empty_patterns_witness :
    expectStep [] 5 0 true stAB =
      if 5 ≤ 0 then .timeoutErr (stAB.buffer.take 500) stAB else .poll stAB :=
  (expect_empty_patterns 5 0 stAB [⟨0, true, []⟩] (by decide)).1

/-- Claim C5: on a pass where the elapsed wall-clock time has reached
the timeout, the call raises `TimeoutError` carrying a snapshot of the
first 500 buffered characters — bounded in length by 500 — with the
state, buffer included, left exactly as it was. -/
theorem expect_deadline_timeout (pats : List Pattern) (timeout elapsed : Nat)
    (alive : Bool) (st : SpawnState) (h : timeout ≤ elapsed) :
    expectStep pats timeout elapsed alive st =
      .timeoutErr (st.buffer.take 500) st ∧
    (st.buffer.take 500).length ≤ 500 := by
  constructor
  · unfold expectStep
    rw [if_pos h]
  · exact List.length_take_le 500 st.buffer

/-- Claim C5 witness: timeout 3, elapsed 5: the pass raises
`TimeoutError` with the bounded snapshot and the unchanged state. -/
theorem expect_deadline_timeout_witness :
    expectStep [Pattern.text ['x']] 3 5 true stAB =
      .timeoutErr (stAB.buffer.take 500) stAB ∧
    (stAB.buffer.take 500).length ≤ 500 :=
  expect_deadline_timeout [Pattern.text ['x']] 3 5 true stAB (by decide)

/-- Claim C6: the `TIMEOUT` sentinel in a pattern list has no
independent effect: a pass — or a whole call — that returns an index
never returns the position of a `TIMEOUT` sentinel, and once the
deadline is reached the pass fails with `TimeoutError` exactly as it
would with every `TIMEOUT` sentinel removed from the list. -/
theorem expect_timeout_marker_inert (pats : List Pattern) (timeout elapsed : Nat)
    (alive : Bool) (st : SpawnState) (sched : List Obs) :
    (∀ i st', expectStep pats timeout elapsed alive st = .matched i st' →
      pats[i]? ≠ some Pattern.timeoutMark) ∧
    (∀ i st', runExpect pats timeout sched st = .matched i st' →
      pats[i]? ≠ some Pattern.timeoutMark) ∧
    (timeout ≤ elapsed →
      expectStep pats timeout elapsed alive st =
        expectStep (pats.filter (fun q => !(q == Pattern.timeoutMark)))
          timeout elapsed alive st) := by
  have hstep : ∀ (e : Nat) (a : Bool) (stm : SpawnState) (i : Nat) (st' : SpawnState),
      expectStep pats timeout e a stm = .matched i st' →
      pats[i]? ≠ some Pattern.timeoutMark := by
    intro e a stm i st' h hbad
    obtain ⟨-, hcase⟩ := expectStep_matched_inv h
    rcases hcase with ⟨-, hfe, -⟩ | ⟨-, j, s, hsc, -⟩
    · obtain ⟨k, hk, hget⟩ := firstEofIdx_sound hfe
      rw [hk] at hbad
      simp only [Nat.zero_add] at hbad
      rw [hget] at hbad
      simp at hbad
    · obtain ⟨k, hk, hget, -⟩ := scanFrom_sound hsc
      rw [hk] at hbad
      simp only [Nat.zero_add] at hbad
      rw [hget] at hbad
      simp at hbad
  refine ⟨fun i st' h => hstep elapsed alive st i st' h, ?_, ?_⟩
  · intro i st' h
    obtain ⟨e, a, stm, hm⟩ := runExpect_matched_step pats timeout sched st i st' h
    exact hstep e a stm i st' hm
  · intro h
    unfold expectStep
    rw [if_pos h, if_pos h]

/-- Claim C6 witness: patterns `[TIMEOUT, "a"]` on buffer `"ab"`: the
match returns index 1, not the `TIMEOUT` position, and past the deadline
the failure equals the one produced with the sentinel filtered out. -/
theorem expect_timeout_marker_inert_witness :
    ([Pattern.timeoutMark, Pattern.text ['a']][1]? ≠ some Pattern.timeoutMark) ∧
    expectStep [Pattern.timeoutMark, Pattern.text ['a']] 3 4 true stAB =
      expectStep ([Pattern.timeoutMark, Pattern.text ['a']].filter
        (fun q => !(q == Pattern.timeoutMark))) 3 4 true stAB :=
  ⟨(expect_timeout_marker_inert [Pattern.timeoutMark, Pattern.text ['a']]
      5 0 true stAB []).1 1 stABmatched rfl,
   (expect_timeout_marker_inert [Pattern.timeoutMark, Pattern.text ['a']]
      3 4 true stAB []).2.2 (by decide)⟩

/-- Claim C7: buffer bytes are never reordered or dropped: the reader
appends received data at the end of the buffer; a pass returning an
index consumed exactly the prefix `before ++ matched` (for the EOF
handoff the whole buffer moved into `before` and the buffer cleared);
a failing or polling pass leaves the buffer exactly as it was. -/
theorem buffer_order_invariant (pats : List Pattern) (timeout elapsed : Nat)
    (alive : Bool) (st : SpawnState) (data : List Char) :
    (readerAppend st data).buffer = st.buffer ++ data ∧
    (∀ i st', expectStep pats timeout elapsed alive st = .matched i st' →
      st'.before ++ st'.after ++ st'.buffer = st.buffer) ∧
    (∀ i st', alive = false →
      expectStep pats timeout elapsed alive st = .matched i st' →
      st'.before = st.buffer ∧ st'.buffer = []) ∧
    (∀ snap st', expectStep pats timeout elapsed alive st = .timeoutErr snap st' ∨
        expectStep pats timeout elapsed alive st = .eofErr snap st' →
      st'.buffer = st.buffer) ∧
    (∀ st', expectStep pats timeout elapsed alive st = .poll st' →
      st'.buffer = st.buffer) := by
  refine ⟨rfl, ?_, ?_, ?_, ?_⟩
  · intro i st' h
    obtain ⟨-, hcase⟩ := expectStep_matched_inv h
    rcases hcase with ⟨-, -, hst⟩ | ⟨-, j, s, hsc, hst⟩
    · subst hst
      simp
    · subst hst
      obtain ⟨k, -, -, hfind⟩ := scanFrom_sound hsc
      exact findSub_split hfind
  · intro i st' halive h
    obtain ⟨-, hcase⟩ := expectStep_matched_inv h
    rcases hcase with ⟨-, -, hst⟩ | ⟨hal, -⟩
    · subst hst
      exact ⟨rfl, rfl⟩
    · rw [halive] at hal
      cases hal
  · intro snap st' h
    rcases h with h | h
    · rw [(expectStep_timeoutErr_inv h).1]
    · rw [(expectStep_eofErr_inv h).1]
  · intro st' h
    rw [expectStep_poll_inv h]

/-- Claim C7 witness: matching `"a"` in buffer `"ab"` consumes exactly
the prefix: before, matched span and remaining buffer reassemble to
`"ab"`. -/
theorem buffer_order_invariant_witness :
    stABmatched.before ++ stABmatched.after ++ stABmatched.buffer = stAB.buffer :=
  (buffer_order_invariant [Pattern.text ['a']] 5 0 true stAB []).2.1 0 stABmatched rfl

/-- Claim C8: with the process alive and before the deadline, a text
pattern matching an empty span (the empty pattern; `re.search` matches
it at position 0) whose earlier-declared patterns have no satisfying
location makes the pass return its index immediately, with `before`
empty, the matched span empty, and the buffer left exactly equal to its
prior contents. -/
theorem expect_empty_span (pats pre post : List Pattern)
    (timeout elapsed : Nat) (st : SpawnState)
    (hpats : pats = pre ++ Pattern.text [] :: post)
    (htime : elapsed < timeout)
    (hpre : ∀ q ∈ pre, ∀ s, q = Pattern.text s → ∀ i, ¬ s <+: st.buffer.drop i) :
    expectStep pats timeout elapsed true st =
      .matched pre.length
        { st with before := [], after := [], matchv := some [] } ∧
    ({ st with before := [], after := [], matchv := some [] } :
        SpawnState).buffer = st.buffer := by
  have hfs : findSub ([] : List Char) st.buffer = some 0 :=
    findSub_eq_of (by simp)
      (fun i hi => absurd hi (Nat.not_lt_zero i))
  have hpre' : ∀ q ∈ pre, noTextMatch q st.buffer = true := by
    intro q hq
    cases q with
    | text s =>
      have hnone : findSub s st.buffer = none :=
        findSub_eq_none_of (fun i => hpre (Pattern.text s) hq s rfl i)
      simp [noTextMatch, hnone]
    | eof => rfl
    | timeoutMark => rfl
  refine ⟨?_, rfl⟩
  subst hpats
  unfold expectStep
  rw [if_neg (by omega)]
  rw [if_neg (by simp)]
  rw [scanFrom_append st.buffer pre 0 (Pattern.text [] :: post) hpre']
  simp [scanFrom, hfs]

/-- Claim C8 witness: the empty pattern against buffer `"ab"` returns
index 0 with empty `before`, empty matched span, and the buffer still
`"ab"`. -/
theorem expect_empty_span_witness :
    expectStep [Pattern.text []] 5 0 true stAB =
      .matched 0 { stAB with before := [], after := [], matchv := some [] } ∧
    ({ stAB with before := [], after := [], matchv := some [] } :
        SpawnState).buffer = stAB.buffer :=
  expect_empty_span [Pattern.text []] [] [] 5 0 stAB rfl (by decide)
    (fun q hq => absurd hq (List.not_mem_nil q))

/-- Claim C9: `close` is idempotent and permitted in every session
state: it is a total function, a second call produces exactly the state
the first one produced, and the only observable effect is the two
teardown flags — buffer, `before`, `after` and `match` are untouched. -/
theorem close_idempotent (st : SpawnState) :
    close (close st) = close st ∧
    (close st).stopReader = true ∧ (close st).procClosed = true ∧
    (close st).buffer = st.buffer ∧ (close st).before = st.before ∧
    (close st).after = st.after ∧ (close st).matchv = st.matchv :=
  ⟨rfl, rfl, rfl, rfl, rfl, rfl, rfl⟩

/-- Claim C10: a failing `expect` performs no mutation: a pass raising
`TimeoutError` or `EOFError` leaves buffer, `before`, `after` and
`match` exactly as they were; over a whole failing call, `before`,
`after` and `match` hold their call-entry values and the buffer is the
entry buffer extended only by what the reader thread appended during the
call — the call itself consumed nothing. -/
theorem expect_fail_no_mutation (pats : List Pattern) (timeout elapsed : Nat)
    (alive : Bool) (st : SpawnState) (sched : List Obs) :
    (∀ snap st', expectStep pats timeout elapsed alive st = .timeoutErr snap st' ∨
        expectStep pats timeout elapsed alive st = .eofErr snap st' →
      st'.buffer = st.buffer ∧ st'.before = st.before ∧
      st'.after = st.after ∧ st'.matchv = st.matchv) ∧
    (∀ snap st', runExpect pats timeout sched st = .timeoutErr snap st' ∨
        runExpect pats timeout sched st = .eofErr snap st' →
      st'.before = st.before ∧ st'.after = st.after ∧
      st'.matchv = st.matchv ∧ ∃ app, st'.buffer = st.buffer ++ app) := by
  constructor
  · intro snap st' h
    have hst : st' = st := by
      rcases h with h | h
      · exact (expectStep_timeoutErr_inv h).1
      · exact (expectStep_eofErr_inv h).1
    subst hst
    exact ⟨rfl, rfl, rfl, rfl⟩
  · intro snap st' h
    exact runExpect_fail_inv pats timeout sched st snap st' h

/-- Claim C10 witness: a pass past the deadline raises `TimeoutError`
with every session field exactly as at entry. -/
theorem expect_fail_no_mutation_witness :
    stAB.buffer = stAB.buffer ∧ stAB.before = stAB.before ∧
    stAB.after = stAB.after ∧ stAB.matchv = stAB.matchv :=
  (expect_fail_no_mutation [Pattern.text ['x']] 3 5 true stAB []).1
    (stAB.buffer.take 500) stAB (Or.inl rfl)

end PexpectMcp
